import Mathlib

/-!
Shallow embedding of the `zen` package (`src/context.go`): form binding with
regex validation (`Context.ParseValidForm`, `parseValidForm`, `scan`,
`valid`) and the response helpers (`Context.JSON`, `Context.XML`,
`Context.ASN1`, `Context.Head`).  Calls into the Go standard library
(`strconv` parsing, `regexp`, `net/http` form parsing, the encoders) are
modelled explicitly below; each model carries a comment stating its
modelling choices and restrictions.
-/

set_option maxRecDepth 8192

namespace Zen

/-! ### Errors of the Go standard library calls the code makes -/

/-- Kind of a Go `strconv.NumError`: `strconv.ErrSyntax` or
`strconv.ErrRange`. -/
inductive NumErrKind
  | errSyn
  | errRange
deriving DecidableEq

/-- Go `error` values that can flow out of the functions in `context.go`:
a `strconv.NumError` (function name, offending string, kind), a
`regexp/syntax` parse error (code and expression), or a plain
`errors.New` message (used by `valid` for the configured `msg`). -/
inductive GoError
  | numError (fn num : String) (kind : NumErrKind)
  | regexpError (code expr : String)
  | simple (msg : String)
deriving DecidableEq

/-- The text of a `NumErrKind`, as in Go's `strconv` package. -/
def NumErrKind.msg : NumErrKind → String
  | .errSyn => "invalid syntax"
  | .errRange => "value out of range"

/-- The result of calling `.Error()` on a modelled Go error value
(`strconv.NumError.Error`, `regexp/syntax.Error.Error`, `errors.New`). -/
def GoError.message : GoError → String
  | .numError fn num kind => "strconv." ++ fn ++ ": parsing \"" ++ num ++ "\": " ++ kind.msg
  | .regexpError code expr => "error parsing regexp: " ++ code ++ ": `" ++ expr ++ "`"
  | .simple msg => msg

/-! ### Models of the `strconv` parsers (external standard library)

`scan` calls `strconv.ParseBool(s)`, `strconv.ParseInt(s, 10, 64)`,
`strconv.ParseUint(s, 10, 64)` and `strconv.ParseFloat(s, 64)`.  They are
modelled here over unbounded `Nat`/`Int`/`Rat`; base is fixed to 10 and
bit size to 64 as at the call sites. -/

/-- Decimal digit test, as Go's `strconv` accepts for base 10. -/
def isDigit (c : Char) : Bool := '0' ≤ c && c ≤ '9'

/-- Value of one decimal digit. -/
def digitVal (c : Char) : Nat := c.toNat - '0'.toNat

/-- Value of a decimal digit string. -/
def digitsVal (cs : List Char) : Nat := cs.foldl (fun a c => a * 10 + digitVal c) 0

/-- Model of `strconv.ParseUint(s, 10, 64)`: no sign is permitted, the
string must be one or more decimal digits (base 10, so underscores are
rejected), and values above `2^64 - 1` are a range error. -/
def goParseUint64 (s : String) : Except GoError Nat :=
  let cs := s.data
  if cs.isEmpty then .error (.numError "ParseUint" s .errSyn)
  else if cs.all isDigit then
    let n := digitsVal cs
    if n < 2 ^ 64 then .ok n else .error (.numError "ParseUint" s .errRange)
  else .error (.numError "ParseUint" s .errSyn)

/-- Model of `strconv.ParseInt(s, 10, 64)`: an optional `+`/`-` sign
followed by one or more decimal digits; values outside
`[-2^63, 2^63 - 1]` are a range error. -/
def goParseInt64 (s : String) : Except GoError Int :=
  match s.data with
  | [] => .error (.numError "ParseInt" s .errSyn)
  | c :: rest =>
    let p : Bool × List Char :=
      if c = '-' then (true, rest)
      else if c = '+' then (false, rest)
      else (false, c :: rest)
    if p.2.isEmpty then .error (.numError "ParseInt" s .errSyn)
    else if p.2.all isDigit then
      let n := digitsVal p.2
      if p.1 then
        if n ≤ 2 ^ 63 then .ok (-(n : Int)) else .error (.numError "ParseInt" s .errRange)
      else
        if n < 2 ^ 63 then .ok (n : Int) else .error (.numError "ParseInt" s .errRange)
    else .error (.numError "ParseInt" s .errSyn)

/-- Model of `strconv.ParseBool`: exactly the twelve strings Go accepts;
anything else is a syntax error. -/
def goParseBool (s : String) : Except GoError Bool :=
  if s = "1" ∨ s = "t" ∨ s = "T" ∨ s = "true" ∨ s = "TRUE" ∨ s = "True" then .ok true
  else if s = "0" ∨ s = "f" ∨ s = "F" ∨ s = "false" ∨ s = "FALSE" ∨ s = "False" then .ok false
  else .error (.numError "ParseBool" s .errSyn)

/-- A Go floating point value: a finite `float64` produced by
`strconv.ParseFloat` is kept as the decimal the text denotes, as a
mantissa/power-of-ten pair `mant * 10 ^ exp10` (rounding to the nearest
binary `float64` is not modelled; distinct spellings of one real number
are not identified, and no claim here depends on either), plus signed
infinity and NaN for the special spellings.  `narrow32 mant exp10`
denotes the `float32` nearest to `mant * 10 ^ exp10`, i.e. the result of
Go's conversion `float32(x)` performed by `reflect.Value.SetFloat` on a
`float32` field; the conversion is kept symbolic, so it is never
identified with a `finite` value — in particular not for the values that
are exactly representable in `float32`, where Go's conversion is lossless
(the one counterexample built on this distinction uses `0.1`, which is
not `float32`-representable, so the Go values genuinely differ there). -/
inductive GoFloat
  | finite (mant exp10 : Int)
  | narrow32 (mant exp10 : Int)
  | inf (positive : Bool)
  | nan
deriving DecidableEq

/-- Whether the exact decimal `mant * 10 ^ exp10` overflows `float64`,
i.e. has magnitude at least `2 ^ 1024 - 2 ^ 970` (the smallest value
that IEEE754 round-to-nearest-even sends to infinity); exactly these
well-formed decimal inputs get `ErrRange` from `strconv.ParseFloat`. -/
def overflows64 (mant exp10 : Int) : Bool :=
  if 0 ≤ exp10 then
    Nat.ble (2 ^ 1024 - 2 ^ 970) (mant.natAbs * 10 ^ exp10.toNat)
  else
    Nat.ble ((2 ^ 1024 - 2 ^ 970) * 10 ^ (-exp10).toNat) mant.natAbs

/-- Case folding for the letters of `inf`, `infinity` and `nan`, enough
to model Go's case-insensitive comparison against exactly those words
(for every other letter, folding could not produce a match anyway). -/
def lowerChar (c : Char) : Char :=
  if c = 'I' then 'i'
  else if c = 'N' then 'n'
  else if c = 'F' then 'f'
  else if c = 'T' then 't'
  else if c = 'Y' then 'y'
  else if c = 'A' then 'a'
  else c

/-- Model of `strconv.ParseFloat(s, 64)`: an optional sign, then either a
special spelling (`inf`, `infinity`, `nan`, case-insensitively) or a
decimal mantissa (digits, with an optional fractional part, at least one
digit overall) with an optional `e`/`E` exponent.  A well-formed decimal
whose value overflows `float64` is an `ErrRange` error, exactly as in Go
(Go also returns `±Inf` alongside it, which `scan` discards); a value
that underflows is kept exactly while Go rounds it to zero or a denormal,
but Go reports no error there, so the error behaviour agrees.
Hexadecimal floats and underscores are not modelled; inputs using them
are syntax errors here, which only shrinks the accepted set. -/
def goParseFloat (s : String) : Except GoError GoFloat :=
  let synErr := GoError.numError "ParseFloat" s .errSyn
  let rangeErr := GoError.numError "ParseFloat" s .errRange
  let p : Bool × List Char :=
    match s.data with
    | '+' :: r => (false, r)
    | '-' :: r => (true, r)
    | r => (false, r)
  let neg := p.1
  let low := p.2.map lowerChar
  if low = "inf".data ∨ low = "infinity".data then .ok (.inf (!neg))
  else if low = "nan".data then .ok .nan
  else
    let ipRest := p.2.span isDigit
    let fpRest : List Char × List Char :=
      match ipRest.2 with
      | '.' :: r => r.span isDigit
      | _ => ([], ipRest.2)
    if ipRest.1.isEmpty && fpRest.1.isEmpty then .error synErr
    else
      let m : Nat := digitsVal (ipRest.1 ++ fpRest.1)
      let mant : Int := if neg then -(m : Int) else (m : Int)
      let exp0 : Int := -(fpRest.1.length : Int)
      match fpRest.2 with
      | [] =>
        if overflows64 mant exp0 then .error rangeErr else .ok (.finite mant exp0)
      | c :: r =>
        if c = 'e' ∨ c = 'E' then
          let q : Bool × List Char :=
            match r with
            | '+' :: r2 => (false, r2)
            | '-' :: r2 => (true, r2)
            | r2 => (false, r2)
          let edRest := q.2.span isDigit
          if edRest.1.isEmpty || !edRest.2.isEmpty then .error synErr
          else
            let ex : Int := (digitsVal edRest.1 : Int)
            let expo : Int := if q.1 then exp0 - ex else exp0 + ex
            if overflows64 mant expo then .error rangeErr else .ok (.finite mant expo)
        else .error synErr

/-! ### Model of `regexp` (external standard library)

`valid` calls `regexp.Compile(validate)` and `rxp.MatchString(s)`.  The
model covers the fragment of RE2: literal characters, `.` (any character
except newline, as in Go without the `s` flag), grouping with `(`/`)`,
alternation `|`, and the repetitions `*`, `+`, `?`.  Character classes,
escapes, anchors, braces and non-greedy operators are not modelled and
are reported as compile errors.  `MatchString` reports whether the
string contains any match, as in Go. -/

/-- Regular expression abstract syntax. -/
inductive RE
  | emp
  | eps
  | chr (c : Char)
  | anyChar
  | alt (r s : RE)
  | cat (r s : RE)
  | star (r : RE)
deriving DecidableEq

/-- Whether `r` accepts the empty string. -/
def nullable : RE → Bool
  | .emp => false
  | .eps => true
  | .chr _ => false
  | .anyChar => false
  | .alt r s => nullable r || nullable s
  | .cat r s => nullable r && nullable s
  | .star _ => true

/-- Brzozowski derivative of `r` by the character `c`. -/
def deriv : RE → Char → RE
  | .emp, _ => .emp
  | .eps, _ => .emp
  | .chr d, c => if c = d then .eps else .emp
  | .anyChar, c => if c = '\n' then .emp else .eps
  | .alt r s, c => .alt (deriv r c) (deriv s c)
  | .cat r s, c => if nullable r then .alt (.cat (deriv r c) s) (deriv s c) else .cat (deriv r c) s
  | .star r, c => .cat (deriv r c) (.star r)

/-- Whether some prefix of `cs` matches `r`. -/
def matchesFrom (r : RE) : List Char → Bool
  | [] => nullable r
  | c :: cs => nullable r || matchesFrom (deriv r c) cs

/-- Whether some substring of `cs` matches `r`. -/
def matchSomewhere (r : RE) : List Char → Bool
  | [] => nullable r
  | c :: cs => matchesFrom r (c :: cs) || matchSomewhere r cs

/-- Model of `Regexp.MatchString`: the string contains a match of `r`. -/
def matchString (r : RE) (s : String) : Bool := matchSomewhere r s.data

/-- Rejects a repetition operator directly following another one, as Go
does for e.g. `a**` (non-greedy `*?` is not modelled, see above). -/
def reNoDouble (r : RE) (cs : List Char) : Except String (RE × List Char) :=
  match cs with
  | '*' :: _ => .error "invalid nested repetition operator"
  | '+' :: _ => .error "invalid nested repetition operator"
  | '?' :: _ => .error "invalid nested repetition operator"
  | _ => .ok (r, cs)

/-- Characters outside the modelled regexp fragment. -/
def reUnsupported (c : Char) : Bool :=
  c = '[' || c = ']' || c = '\x7b' || c = '\x7d' || c = '\\' || c = '^' || c = '$'

mutual

/-- Parse an alternation (`cat ('|' cat)*`); fuel-driven recursion. -/
def reAlt : Nat → List Char → Except String (RE × List Char)
  | 0, _ => .error "internal: out of fuel"
  | n + 1, cs => do
    let rc ← reCat n cs
    match rc.2 with
    | '|' :: cs2 => do
      let sc ← reAlt n cs2
      .ok (.alt rc.1 sc.1, sc.2)
    | _ => .ok rc

/-- Parse a concatenation of repetitions, stopping at `)`, `|` or the end. -/
def reCat : Nat → List Char → Except String (RE × List Char)
  | 0, _ => .error "internal: out of fuel"
  | n + 1, cs =>
    match cs with
    | [] => .ok (.eps, [])
    | ')' :: _ => .ok (.eps, cs)
    | '|' :: _ => .ok (.eps, cs)
    | _ => do
      let rc ← reRep n cs
      let sc ← reCat n rc.2
      .ok (.cat rc.1 sc.1, sc.2)

/-- Parse an atom followed by an optional repetition operator. -/
def reRep : Nat → List Char → Except String (RE × List Char)
  | 0, _ => .error "internal: out of fuel"
  | n + 1, cs => do
    let rc ← reAtom n cs
    match rc.2 with
    | '*' :: cs2 => reNoDouble (.star rc.1) cs2
    | '+' :: cs2 => reNoDouble (.cat rc.1 (.star rc.1)) cs2
    | '?' :: cs2 => reNoDouble (.alt rc.1 .eps) cs2
    | _ => .ok rc

/-- Parse one atom: a group, `.`, or a literal character. -/
def reAtom : Nat → List Char → Except String (RE × List Char)
  | 0, _ => .error "internal: out of fuel"
  | n + 1, cs =>
    match cs with
    | [] => .error "missing operand"
    | '(' :: cs1 => do
      let rc ← reAlt n cs1
      match rc.2 with
      | ')' :: cs3 => .ok (rc.1, cs3)
      | _ => .error "missing closing )"
    | ')' :: _ => .error "unexpected )"
    | '|' :: _ => .error "missing operand"
    | '*' :: _ => .error "missing argument to repetition operator"
    | '+' :: _ => .error "missing argument to repetition operator"
    | '?' :: _ => .error "missing argument to repetition operator"
    | '.' :: cs1 => .ok (.anyChar, cs1)
    | c :: cs1 =>
      if reUnsupported c then .error "unsupported in model" else .ok (.chr c, cs1)

end

/-- Model of `regexp.Compile`: run the fragment parser over the whole
pattern.  The fuel is generous; it cannot run out on inputs the grammar
accepts, since every four levels of descent consume a character. -/
def goRegexpCompile (pat : String) : Except GoError RE :=
  match reAlt (4 * pat.length + 8) pat.data with
  | .error m => .error (.regexpError m pat)
  | .ok (r, []) => .ok r
  | .ok (_, _ :: _) => .error (.regexpError "unexpected )" pat)

/-! ### The reflect-level field model

`parseValidForm` walks the fields of a struct via `reflect`.  A field is
modelled by the three tag values the code reads (`form`, `valid`, `msg`),
its settability (`reflect.Value.CanSet`), and its current contents
tagged with its `reflect.Kind`. -/

/-- The signed integer kinds of `reflect` handled by `scan`
(`Int` is 64 bits wide on the platforms Go supports today). -/
inductive IntKind
  | int
  | int8
  | int16
  | int32
  | int64
deriving DecidableEq

/-- Bit width of a signed integer kind. -/
def IntKind.bits : IntKind → Nat
  | .int => 64
  | .int8 => 8
  | .int16 => 16
  | .int32 => 32
  | .int64 => 64

/-- The unsigned integer kinds of `reflect` handled by `scan`
(`Uintptr` is not in `scan`'s switch and falls under `other`). -/
inductive UintKind
  | uint
  | uint8
  | uint16
  | uint32
  | uint64
deriving DecidableEq

/-- Bit width of an unsigned integer kind. -/
def UintKind.bits : UintKind → Nat
  | .uint => 64
  | .uint8 => 8
  | .uint16 => 16
  | .uint32 => 32
  | .uint64 => 64

/-- The float kinds of `reflect` handled by `scan`. -/
inductive FloatKind
  | float32
  | float64
deriving DecidableEq

/-- Contents of a struct field, tagged with its `reflect.Kind`.  `other`
stands for every kind `scan`'s switch does not handle (it falls through
the switch and the field is left alone). -/
inductive FieldVal
  | str (s : String)
  | boolean (b : Bool)
  | intv (k : IntKind) (v : Int)
  | uintv (k : UintKind) (v : Nat)
  | floatv (k : FloatKind) (v : GoFloat)
  | other
deriving DecidableEq

/-- One struct field as `parseValidForm` sees it: the `form`, `valid` and
`msg` tag values (`reflect.StructTag.Get` returns `""` for an absent
tag), `reflect.Value.CanSet`, and the contents. -/
structure Field where
  formName : String
  validate : String
  validateMsg : String
  canSet : Bool
  val : FieldVal
deriving DecidableEq

/-- Go integer conversion `int64 → intN` as performed by
`reflect.Value.SetInt` on a narrower field: keep the low `bits` bits and
reinterpret them as a signed value. -/
def wrapInt (bits : Nat) (i : Int) : Int :=
  (i + 2 ^ (bits - 1)) % 2 ^ bits - 2 ^ (bits - 1)

/-- Go integer conversion `uint64 → uintN` as performed by
`reflect.Value.SetUint` on a narrower field. -/
def wrapUint (bits : Nat) (n : Nat) : Nat := n % 2 ^ bits

/-- The conversion `reflect.Value.SetFloat` performs on the parsed
`float64` before storing it: the identity on a `float64` field, and the
Go conversion `float32(x)` on a `float32` field, modelled symbolically by
`GoFloat.narrow32` for finite values (infinities and NaN are preserved
by the conversion). -/
def setFloatConv (k : FloatKind) (q : GoFloat) : GoFloat :=
  match k with
  | .float64 => q
  | .float32 =>
    match q with
    | .finite m e => .narrow32 m e
    | x => x

/-- Shallow embedding of `scan` (src/context.go:72-112).  The in-place
mutation of the `reflect.Value` is modelled by returning the field's new
contents.  `SetInt`/`SetUint` convert the 64-bit parsed value to the
field's width (Go conversion, i.e. truncation to the low bits), and
`SetFloat` narrows to `float32` on a `float32` field (`setFloatConv`). -/
def scan (canSet : Bool) (v : FieldVal) (s : String) : Except GoError FieldVal :=
  if !canSet then .ok v
  else
    match v with
    | .str _ => .ok (.str s)
    | .boolean _ =>
      match goParseBool s with
      | .error err => .error err
      | .ok b => .ok (.boolean b)
    | .intv k _ =>
      match goParseInt64 s with
      | .error err => .error err
      | .ok i => .ok (.intv k (wrapInt k.bits i))
    | .uintv k _ =>
      match goParseUint64 s with
      | .error err => .error err
      | .ok x => .ok (.uintv k (wrapUint k.bits x))
    | .floatv k _ =>
      match goParseFloat s with
      | .error err => .error err
      | .ok q => .ok (.floatv k (setFloatConv k q))
    | .other => .ok v

/-- Shallow embedding of `valid` (src/context.go:114-128): an empty
pattern validates everything; otherwise compile the pattern (propagating
a compile error as-is) and return `errors.New(msg)` when the string does
not match. -/
def valid (s validate msg : String) : Except GoError Unit :=
  if validate = "" then .ok ()
  else
    match goRegexpCompile validate with
    | .error e => .error e
    | .ok rxp => if matchString rxp s then .ok () else .error (.simple msg)

/-- `url.Values`: an association of form parameter names to value lists,
in map-lookup order. -/
abbrev Form := List (String × List String)

/-- Model of `url.Values.Get`: the first value under the key, or `""`
when the key is absent or has no values. -/
def formGet : Form → String → String
  | [], _ => ""
  | (k, vs) :: rest, name =>
    if k = name then
      match vs with
      | [] => ""
      | v :: _ => v
    else formGet rest name

/-- Shallow embedding of `parseValidForm` (src/context.go:47-70): walk
the fields in declaration order; for each, fetch the named form value,
regex-validate it, scan it into the field, and return the first error
immediately.  The struct's state is threaded through explicitly, so the
returned list holds the updated fields (on error: those before the
failing field updated, the failing field and all later ones untouched). -/
def parseValidForm (fields : List Field) (form : Form) : List Field × Option GoError :=
  match fields with
  | [] => ([], none)
  | f :: rest =>
    let formValue := formGet form f.formName
    match valid formValue f.validate f.validateMsg with
    | .error e => (f :: rest, some e)
    | .ok _ =>
      match scan f.canSet f.val formValue with
      | .error e => (f :: rest, some e)
      | .ok v =>
        let r := parseValidForm rest form
        ({ f with val := v } :: r.1, r.2)

/-- The per-field step of `parseValidForm`'s loop body: validate then
scan, yielding the updated field or the first error. -/
def bindField (f : Field) (form : Form) : Except GoError Field :=
  let formValue := formGet form f.formName
  match valid formValue f.validate f.validateMsg with
  | .error e => .error e
  | .ok _ =>
    match scan f.canSet f.val formValue with
    | .error e => .error e
    | .ok v => .ok { f with val := v }

/-! ### The `Context` and its response helpers -/

/-- Commonly used mime-type constants of `context.go`. -/
def applicationJSON : String := "application/json"

/-- `application/xml`. -/
def applicationXML : String := "application/xml"

/-- `text/xml` (declared in `context.go`, unused by its methods). -/
def textXML : String := "text/xml"

/-- `application/asn1`. -/
def applicationASN1 : String := "application/asn1"

/-- The `Content-Type` header key. -/
def contentType : String := "Content-Type"

/-- One observable action on the `http.ResponseWriter`: adding a header
or writing a chunk of body bytes.  Order in the trace is the order the
actions happened in. -/
inductive RWEvent
  | header (k v : String)
  | write (chunk : String)
deriving DecidableEq

/-- Model of the `http.ResponseWriter` as the trace of actions performed
on it. -/
structure ResponseWriter where
  events : List RWEvent
deriving DecidableEq

/-- Model of the `*http.Request` as far as `ParseValidForm` uses it: the
outcome of `req.ParseForm()` together with the parsed `req.Form`
(external `net/http` parsing, represented by its result). -/
structure Request where
  parseFormResult : Except GoError Form

/-- The `Context`: a request / response-writer pair. -/
structure Context where
  req : Request
  rw : ResponseWriter

/-- Shallow embedding of `Context.Head` (src/context.go:175-177):
`c.rw.Header().Add(k, v)`. -/
def Context.Head (c : Context) (k v : String) : Context :=
  { c with rw := ⟨c.rw.events ++ [.header k v]⟩ }

/-- Append a body write to the response writer's trace. -/
def rwWrite (c : Context) (chunk : String) : Context :=
  { c with rw := ⟨c.rw.events ++ [.write chunk]⟩ }

/-- Shallow embedding of `Context.ParseValidForm` (src/context.go:40-45):
parse the request's form, returning that error unchanged on failure, else
bind the parsed form into the input struct. -/
def Context.ParseValidForm (c : Context) (input : List Field) : List Field × Option GoError :=
  match c.req.parseFormResult with
  | .error e => (input, some e)
  | .ok form => parseValidForm input form

/-- Shallow embedding of `Context.JSON` (src/context.go:131-140): add
the `Content-Type: application/json` header, then encode.  The external
`json.Encoder.Encode` is represented by its marshalling outcome: on
success it writes the encoded bytes, on failure it writes nothing. -/
def Context.JSON (c : Context) (encoded : Except GoError String) : Context × Option GoError :=
  let c1 := c.Head contentType applicationJSON
  match encoded with
  | .ok bytes => (rwWrite c1 bytes, none)
  | .error e => (c1, some e)

/-- Shallow embedding of `Context.XML` (src/context.go:143-152), exactly
as `Context.JSON` but with the `application/xml` content type. -/
def Context.XML (c : Context) (encoded : Except GoError String) : Context × Option GoError :=
  let c1 := c.Head contentType applicationXML
  match encoded with
  | .ok bytes => (rwWrite c1 bytes, none)
  | .error e => (c1, some e)

/-- Shallow embedding of `Context.ASN1` (src/context.go:155-167): add
the `application/asn1` header, then `asn1.Marshal` (represented by its
outcome): on failure return the error having written no body bytes, on
success write the marshalled bytes. -/
def Context.ASN1 (c : Context) (encoded : Except GoError String) : Context × Option GoError :=
  let c1 := c.Head contentType applicationASN1
  match encoded with
  | .error e => (c1, some e)
  | .ok bts => (rwWrite c1 bts, none)

/-! ### Helper lemmas -/

deriving instance DecidableEq for Except

/-- `parseValidForm` on an empty field list. -/
theorem parseValidForm_nil (form : Form) : parseValidForm [] form = ([], none) := rfl

/-- Unfolding of `parseValidForm` on a non-empty field list in terms of
the per-field step `bindField`. -/
theorem parseValidForm_cons (f : Field) (rest : List Field) (form : Form) :
    parseValidForm (f :: rest) form =
      match bindField f form with
      | .error e => (f :: rest, some e)
      | .ok f' => (f' :: (parseValidForm rest form).1, (parseValidForm rest form).2) := by
  cases h1 : valid (formGet form f.formName) f.validate f.validateMsg with
  | error e => simp [parseValidForm, bindField, h1]
  | ok u =>
    cases h2 : scan f.canSet f.val (formGet form f.formName) with
    | error e => simp [parseValidForm, bindField, h1, h2]
    | ok v => simp [parseValidForm, bindField, h1, h2]

/-- A prefix of fields whose per-field steps all succeed does not decide
the returned error: it is whatever the remaining fields produce. -/
theorem parseValidForm_append_ok (pre rest : List Field) (form : Form)
    (h : ∀ g ∈ pre, ∃ g', bindField g form = .ok g') :
    (parseValidForm (pre ++ rest) form).2 = (parseValidForm rest form).2 := by
  induction pre with
  | nil => simp
  | cons g gs ih =>
    obtain ⟨g', hg⟩ := h g (by simp)
    rw [List.cons_append, parseValidForm_cons, hg]
    exact ih (fun x hx => h x (by simp [hx]))

/-- Every signed integer kind is at least one bit wide. -/
theorem IntKind.bits_pos (k : IntKind) : 0 < k.bits := by
  cases k <;> decide

/-- `wrapInt` is the identity on values that fit the signed range. -/
theorem wrapInt_eq_self (bits : Nat) (i : Int) (hb : 0 < bits)
    (h1 : -(2 ^ (bits - 1) : Int) ≤ i) (h2 : i < 2 ^ (bits - 1)) :
    wrapInt bits i = i := by
  obtain ⟨b, rfl⟩ : ∃ b, bits = b + 1 := ⟨bits - 1, by omega⟩
  have hpow : (2 : Int) ^ (b + 1) = 2 ^ b * 2 := pow_succ 2 b
  have hb' : (0 : Int) < 2 ^ b := by positivity
  unfold wrapInt
  simp only [Nat.add_sub_cancel] at *
  rw [Int.emod_eq_of_lt (by omega) (by omega)]
  omega

/-- A field's contents bind from a form string exactly as the spec
describes the parsed value per scalar kind: the raw string for a string
field, `strconv.ParseBool` for a bool field, `strconv.ParseInt` base 10
for a signed integer field, `strconv.ParseUint` for an unsigned integer
field — requiring, for the integer families, that the parsed value fits
the field's type, so that the stored value is the parsed value itself —
and, for a float field, the `strconv.ParseFloat` value for a `float64`
field but its `float32` conversion (performed by `SetFloat`) for a
`float32` field. -/
inductive BindsTo : FieldVal → String → FieldVal → Prop
  | strField (old s : String) : BindsTo (.str old) s (.str s)
  | boolField (old : Bool) (s : String) (b : Bool) :
      goParseBool s = .ok b → BindsTo (.boolean old) s (.boolean b)
  | intField (k : IntKind) (old : Int) (s : String) (i : Int) :
      goParseInt64 s = .ok i →
      -(2 ^ (k.bits - 1) : Int) ≤ i → i < 2 ^ (k.bits - 1) →
      BindsTo (.intv k old) s (.intv k i)
  | uintField (k : UintKind) (old : Nat) (s : String) (x : Nat) :
      goParseUint64 s = .ok x → x < 2 ^ k.bits →
      BindsTo (.uintv k old) s (.uintv k x)
  | floatField (k : FloatKind) (old : GoFloat) (s : String) (q : GoFloat) :
      goParseFloat s = .ok q → BindsTo (.floatv k old) s (.floatv k (setFloatConv k q))

/-- On a settable field, `scan` succeeds and stores exactly the bound
value whenever `BindsTo` holds. -/
theorem bindsTo_scan {v : FieldVal} {s : String} {v' : FieldVal}
    (h : BindsTo v s v') : scan true v s = .ok v' := by
  cases h with
  | strField old s => simp [scan]
  | boolField old s b hb => simp [scan, hb]
  | intField k old s i hi h1 h2 =>
    simp [scan, hi, wrapInt_eq_self k.bits i k.bits_pos h1 h2]
  | uintField k old s x hx h1 =>
    simp [scan, hx, wrapUint, Nat.mod_eq_of_lt h1]
  | floatField k old s q hq => simp [scan, hq]

/-- C1 (amended): For every struct whose settable fields have scalar
kinds and every form in which each field's named value passes its
(possibly empty) `valid` pattern and, for a settable field, parses in
the field's type, `parseValidForm` returns nil and afterwards each
settable field holds the parsed value (`BindsTo`): the raw string,
`ParseBool`, in-range `ParseInt`, in-range `ParseUint`, the `ParseFloat`
value for `float64` fields — but for a `float32` field the `ParseFloat`
value converted to `float32` by `SetFloat`, which is not in general the
parsed value; unsettable fields are unchanged. -/
theorem parseValidForm_binds_matching_forms (form : Form)
    (fields fields' : List Field)
    (h : List.Forall₂ (fun f f' =>
      valid (formGet form f.formName) f.validate f.validateMsg = .ok () ∧
      f'.formName = f.formName ∧ f'.validate = f.validate ∧
      f'.validateMsg = f.validateMsg ∧ f'.canSet = f.canSet ∧
      (f.canSet = true → BindsTo f.val (formGet form f.formName) f'.val) ∧
      (f.canSet = false → f'.val = f.val)) fields fields') :
    parseValidForm fields form = (fields', none) := by
  induction h with
  | nil => simp [parseValidForm]
  | @cons f f' fs fs' hff _ ih =>
    obtain ⟨hvalid, hn, hv, hm, hcs, hbt, hbf⟩ := hff
    have hscan : scan f.canSet f.val (formGet form f.formName) = .ok f'.val := by
      cases hc : f.canSet with
      | true => rw [← hc]; rw [hc]; exact bindsTo_scan (hbt hc)
      | false => rw [hbf hc]; simp [scan]
    have hb : bindField f form = .ok { f with val := f'.val } := by
      simp [bindField, hvalid, hscan]
    have hf' : { f with val := f'.val } = f' := by
      cases f
      cases f'
      simp_all
    rw [parseValidForm_cons, hb, hf', ih]

/-- Witness for C1 (amended): a concrete struct exercising every scalar
kind — both float widths — plus an unsettable field, fully bound with no
error; the `float32` field stores the narrowed value. -/
theorem parseValidForm_binds_matching_forms_check :
    parseValidForm
      [⟨"s", "", "", true, .str ""⟩, ⟨"b", "", "", true, .boolean false⟩,
       ⟨"n", "", "", true, .intv .int8 0⟩, ⟨"u", "", "", true, .uintv .uint16 0⟩,
       ⟨"x", "", "", true, .floatv .float64 (.finite 0 0)⟩,
       ⟨"y", "", "", true, .floatv .float32 (.finite 0 0)⟩, ⟨"z", "", "", false, .other⟩]
      [("s", ["hello"]), ("b", ["true"]), ("n", ["-42"]), ("u", ["300"]), ("x", ["1.5"]),
       ("y", ["0.1"])] =
      ([⟨"s", "", "", true, .str "hello"⟩, ⟨"b", "", "", true, .boolean true⟩,
        ⟨"n", "", "", true, .intv .int8 (-42)⟩, ⟨"u", "", "", true, .uintv .uint16 300⟩,
        ⟨"x", "", "", true, .floatv .float64 (.finite 15 (-1))⟩,
        ⟨"y", "", "", true, .floatv .float32 (.narrow32 1 (-1))⟩, ⟨"z", "", "", false, .other⟩],
       none) := by
  apply parseValidForm_binds_matching_forms
  refine .cons ⟨by decide, rfl, rfl, rfl, rfl, fun _ => .strField "" "hello",
      fun h => absurd h (by decide)⟩
    (.cons ⟨by decide, rfl, rfl, rfl, rfl,
        fun _ => .boolField false "true" true (by decide), fun h => absurd h (by decide)⟩
    (.cons ⟨by decide, rfl, rfl, rfl, rfl,
        fun _ => .intField .int8 0 "-42" (-42) (by decide) (by decide) (by decide),
        fun h => absurd h (by decide)⟩
    (.cons ⟨by decide, rfl, rfl, rfl, rfl,
        fun _ => .uintField .uint16 0 "300" 300 (by decide) (by decide),
        fun h => absurd h (by decide)⟩
    (.cons ⟨by decide, rfl, rfl, rfl, rfl,
        fun _ => .floatField .float64 (.finite 0 0) "1.5" (.finite 15 (-1)) (by decide),
        fun h => absurd h (by decide)⟩
    (.cons ⟨by decide, rfl, rfl, rfl, rfl,
        fun _ => .floatField .float32 (.finite 0 0) "0.1" (.finite 1 (-1)) (by decide),
        fun h => absurd h (by decide)⟩
    (.cons ⟨by decide, rfl, rfl, rfl, rfl, fun h => absurd h (by decide), fun _ => rfl⟩
      .nil))))))

/-- Counterexample to C1 as stated: on a settable `float32` field bound
from `"0.1"` the call succeeds, but the field afterwards holds the
`float32` conversion of the parsed value (`SetFloat` narrowing), not
`strconv.ParseFloat` of the raw string as the claim asserts — in Go,
`float32(0.1)` (`0x3DCCCCCD`) and `ParseFloat("0.1", 64)`
(`0x3FB999999999999A`) are genuinely different values, `0.1` not being
`float32`-representable; the model keeps the narrowing symbolic. -/
theorem float32_narrowing_counterexample :
    (parseValidForm [⟨"y", "", "", true, .floatv .float32 (.finite 0 0)⟩]
        [("y", ["0.1"])]).2 = none ∧
    (parseValidForm [⟨"y", "", "", true, .floatv .float32 (.finite 0 0)⟩]
        [("y", ["0.1"])]).1 =
      [⟨"y", "", "", true, .floatv .float32 (.narrow32 1 (-1))⟩] ∧
    goParseFloat "0.1" = .ok (.finite 1 (-1)) ∧
    GoFloat.narrow32 1 (-1) ≠ GoFloat.finite 1 (-1) := by
  refine ⟨by decide, by decide, by decide, by decide⟩

/-- C4: Each of `Context.JSON`, `Context.XML` and `Context.ASN1` extends
the response writer's trace with its content-type header first and the
body write (if the encoder succeeded) strictly after it; on an encoder
error no body bytes are written, but the header is still added. -/
theorem content_type_header_precedes_body (c : Context)
    (ej exml ea : Except GoError String) :
    (c.JSON ej).1.rw.events = c.rw.events ++ RWEvent.header contentType applicationJSON ::
        (match ej with | .ok s => [RWEvent.write s] | .error _ => []) ∧
    (c.XML exml).1.rw.events = c.rw.events ++ RWEvent.header contentType applicationXML ::
        (match exml with | .ok s => [RWEvent.write s] | .error _ => []) ∧
    (c.ASN1 ea).1.rw.events = c.rw.events ++ RWEvent.header contentType applicationASN1 ::
        (match ea with | .ok s => [RWEvent.write s] | .error _ => []) := by
  refine ⟨?_, ?_, ?_⟩
  · cases ej <;> simp [Context.JSON, Context.Head, rwWrite]
  · cases exml <;> simp [Context.XML, Context.Head, rwWrite]
  · cases ea <;> simp [Context.ASN1, Context.Head, rwWrite]

/-- C6: If parsing the request's form fails, `Context.ParseValidForm`
returns that error and the input fields untouched. -/
theorem parseForm_failure_leaves_input (c : Context) (input : List Field)
    (e : GoError) (h : c.req.parseFormResult = .error e) :
    c.ParseValidForm input = (input, some e) := by
  unfold Context.ParseValidForm
  rw [h]

/-- Witness for C6: a concrete request whose form parsing failed. -/
theorem parseForm_failure_leaves_input_check :
    Context.ParseValidForm ⟨⟨.error (.simple "bad body")⟩, ⟨[]⟩⟩
      [⟨"a", "", "", true, .str ""⟩] =
      ([⟨"a", "", "", true, .str ""⟩], some (.simple "bad body")) :=
  parseForm_failure_leaves_input ⟨⟨.error (.simple "bad body")⟩, ⟨[]⟩⟩
    [⟨"a", "", "", true, .str ""⟩] (.simple "bad body") rfl

/-- C9: Integer form values are parsed at 64-bit width; `SetInt`/`SetUint`
then store them truncated to the field's width, so an in-64-bit-range
value for a narrower field succeeds (no error) with the value reduced
modulo `2 ^ w`. -/
theorem narrow_int_truncates (k : IntKind) (ku : UintKind) (old : Int)
    (oldu : Nat) (s t : String) (i : Int) (x : Nat)
    (hi : goParseInt64 s = .ok i) (hx : goParseUint64 t = .ok x) :
    scan true (.intv k old) s = .ok (.intv k (wrapInt k.bits i)) ∧
    scan true (.uintv ku oldu) t = .ok (.uintv ku (x % 2 ^ ku.bits)) := by
  constructor
  · simp [scan, hi]
  · simp [scan, hx, wrapUint]

/-- Witness for C9: `"300"` stored into an `int8` and a `uint8` field
without error, becoming `44 = 300 mod 256` (interpreted signed for the
`int8` case). -/
theorem narrow_int_truncates_check :
    scan true (.intv .int8 0) "300" = .ok (.intv .int8 44) ∧
    scan true (.uintv .uint8 0) "300" = .ok (.uintv .uint8 44) := by
  have h := narrow_int_truncates .int8 .uint8 0 0 "300" "300" 300 300 (by decide) (by decide)
  constructor
  · rw [h.1]; decide
  · rw [h.2]; decide

/-- C2 (amended): For a field with a non-empty `valid` tag reached by the
loop, a form value that fails to match a compiling pattern makes
`parseValidForm` fail with `errors.New` of the `msg` tag (so the error
message is the configured message), while a pattern that does not compile
makes it fail with the regexp compile error itself, not the `msg` tag. -/
theorem valid_tag_failure_modes (pre : List Field) (f : Field) (post : List Field)
    (form : Form)
    (hpre : ∀ g ∈ pre, ∃ g', bindField g form = .ok g')
    (hne : f.validate ≠ "") :
    (∀ e, goRegexpCompile f.validate = .error e →
      (parseValidForm (pre ++ f :: post) form).2 = some e) ∧
    (∀ r, goRegexpCompile f.validate = .ok r →
      matchString r (formGet form f.formName) = false →
      (parseValidForm (pre ++ f :: post) form).2 = some (.simple f.validateMsg) ∧
      GoError.message (.simple f.validateMsg) = f.validateMsg) := by
  have key : ∀ e', valid (formGet form f.formName) f.validate f.validateMsg = .error e' →
      (parseValidForm (pre ++ f :: post) form).2 = some e' := by
    intro e' hv
    rw [parseValidForm_append_ok pre (f :: post) form hpre, parseValidForm_cons]
    have hb : bindField f form = .error e' := by simp [bindField, hv]
    rw [hb]
  constructor
  · intro e hc
    apply key
    simp [valid, hne, hc]
  · intro r hc hm
    refine ⟨key _ ?_, rfl⟩
    simp [valid, hne, hc, hm]

/-- Counterexample to C2 as stated: for the invalid pattern `(` the
returned error is the regexp compile error, whose message is not the
configured `msg` tag value. -/
theorem valid_tag_counterexample :
    (parseValidForm [⟨"a", "(", "must match", true, .str ""⟩] []).2 =
      some (.regexpError "missing closing )" "(") ∧
    GoError.message (.regexpError "missing closing )" "(") ≠ "must match" := by
  constructor
  · decide
  · decide

/-- Witness for the amended C2: value `"b"` fails the pattern `"a"` and
the call fails with exactly the configured message. -/
theorem valid_tag_failure_modes_check :
    (parseValidForm [⟨"f", "a", "need an a", true, .str ""⟩] [("f", ["b"])]).2 =
      some (.simple "need an a") ∧
    GoError.message (.simple "need an a") = "need an a" :=
  (valid_tag_failure_modes [] ⟨"f", "a", "need an a", true, .str ""⟩ [] [("f", ["b"])]
    (by simp) (by decide)).2 (.cat (.chr 'a') .eps) (by decide) (by decide)

/-- The form value of a numeric field fails to parse with a given
`strconv` error, by the field's kind. -/
def numericParseError (v : FieldVal) (s : String) (e : GoError) : Prop :=
  match v with
  | .intv _ _ => goParseInt64 s = .error e
  | .uintv _ _ => goParseUint64 s = .error e
  | .floatv _ _ => goParseFloat s = .error e
  | _ => False

/-- C3: A settable numeric field that passes (or has no) regex validation
but whose form value does not parse makes `parseValidForm` return exactly
the error of the corresponding `strconv` parse function. -/
theorem numeric_parse_error_returned (pre : List Field) (f : Field) (post : List Field)
    (form : Form) (e : GoError)
    (hpre : ∀ g ∈ pre, ∃ g', bindField g form = .ok g')
    (hset : f.canSet = true)
    (hvalid : valid (formGet form f.formName) f.validate f.validateMsg = .ok ())
    (hfail : numericParseError f.val (formGet form f.formName) e) :
    (parseValidForm (pre ++ f :: post) form).2 = some e := by
  have hsc : scan f.canSet f.val (formGet form f.formName) = .error e := by
    rw [hset]
    cases hv : f.val <;> rw [hv] at hfail <;> simp only [numericParseError] at hfail <;>
      simp [scan, hfail]
  rw [parseValidForm_append_ok pre (f :: post) form hpre, parseValidForm_cons]
  have hb : bindField f form = .error e := by simp [bindField, hvalid, hsc]
  rw [hb]

/-- Witness for C3: the non-numeric value `"abc"` on an `int` field
yields the `strconv.ParseInt` syntax error. -/
theorem numeric_parse_error_returned_check :
    (parseValidForm [⟨"n", "", "", true, .intv .int 0⟩] [("n", ["abc"])]).2 =
      some (.numError "ParseInt" "abc" .errSyn) :=
  numeric_parse_error_returned [] ⟨"n", "", "", true, .intv .int 0⟩ [] [("n", ["abc"])]
    (.numError "ParseInt" "abc" .errSyn) (by simp) rfl (by decide)
    (by show goParseInt64 "abc" = .error (.numError "ParseInt" "abc" .errSyn); decide)

/-- C5: `parseValidForm` processes fields in declaration order and stops
at the first failing field: some index `i` exists such that all earlier
fields succeeded (and end up bound), the returned error is produced by
field `i` alone, and field `i` and every later field are returned
unchanged. -/
theorem first_error_stops (fields : List Field) (form : Form) (e : GoError)
    (h : (parseValidForm fields form).2 = some e) :
    ∃ i, i < fields.length ∧
      (parseValidForm (fields.take i) form).2 = none ∧
      (parseValidForm fields form).1 =
        (parseValidForm (fields.take i) form).1 ++ fields.drop i ∧
      ∃ g rest, fields.drop i = g :: rest ∧ bindField g form = .error e := by
  induction fields with
  | nil => simp [parseValidForm] at h
  | cons f rest ih =>
    rw [parseValidForm_cons] at h
    cases hb : bindField f form with
    | error e' =>
      rw [hb] at h
      simp at h
      subst h
      exact ⟨0, by simp, by simp [parseValidForm_nil],
        by simp [parseValidForm_cons, hb, parseValidForm_nil], f, rest, rfl, hb⟩
    | ok f' =>
      rw [hb] at h
      simp at h
      obtain ⟨i, hi, h1, h2, g, tail, hdrop, hbg⟩ := ih h
      refine ⟨i + 1, by simp only [List.length_cons]; omega, ?_, ?_, g, tail,
        by simpa using hdrop, hbg⟩
      · rw [List.take_succ_cons, parseValidForm_cons, hb]
        simpa using h1
      · rw [parseValidForm_cons, hb, List.take_succ_cons, parseValidForm_cons, hb,
          List.drop_succ_cons]
        simpa using h2

/-- Witness for C5: the second of three fields fails; the first is bound,
the error is the second field's parse error, the rest untouched. -/
theorem first_error_stops_check :
    (parseValidForm
      [⟨"a", "", "", true, .str ""⟩, ⟨"n", "", "", true, .intv .int 0⟩,
       ⟨"z", "", "", true, .boolean false⟩]
      [("a", ["x"]), ("n", ["bad"]), ("z", ["true"])]).2 =
      some (.numError "ParseInt" "bad" .errSyn) ∧
    (∃ i, i <
        ([⟨"a", "", "", true, .str ""⟩, ⟨"n", "", "", true, .intv .int 0⟩,
          ⟨"z", "", "", true, .boolean false⟩] : List Field).length ∧
      (parseValidForm
        (([⟨"a", "", "", true, .str ""⟩, ⟨"n", "", "", true, .intv .int 0⟩,
           ⟨"z", "", "", true, .boolean false⟩] : List Field).take i)
        [("a", ["x"]), ("n", ["bad"]), ("z", ["true"])]).2 = none ∧
      (parseValidForm
        [⟨"a", "", "", true, .str ""⟩, ⟨"n", "", "", true, .intv .int 0⟩,
         ⟨"z", "", "", true, .boolean false⟩]
        [("a", ["x"]), ("n", ["bad"]), ("z", ["true"])]).1 =
        (parseValidForm
          (([⟨"a", "", "", true, .str ""⟩, ⟨"n", "", "", true, .intv .int 0⟩,
             ⟨"z", "", "", true, .boolean false⟩] : List Field).take i)
          [("a", ["x"]), ("n", ["bad"]), ("z", ["true"])]).1 ++
          ([⟨"a", "", "", true, .str ""⟩, ⟨"n", "", "", true, .intv .int 0⟩,
            ⟨"z", "", "", true, .boolean false⟩] : List Field).drop i ∧
      ∃ g rest,
        ([⟨"a", "", "", true, .str ""⟩, ⟨"n", "", "", true, .intv .int 0⟩,
          ⟨"z", "", "", true, .boolean false⟩] : List Field).drop i = g :: rest ∧
        bindField g [("a", ["x"]), ("n", ["bad"]), ("z", ["true"])] =
          .error (.numError "ParseInt" "bad" .errSyn)) :=
  ⟨by decide, first_error_stops _ _ _ (by decide)⟩

/-- C7: An unsettable field is never written by `scan` (which returns nil
on it, so no coercion error can come from it), but its `valid` tag is
still applied, so a failing regex on an unsettable field still fails the
whole call. -/
theorem unsettable_field_skipped_but_validated (pre : List Field) (f : Field)
    (post : List Field) (form : Form) (e : GoError)
    (hpre : ∀ g ∈ pre, ∃ g', bindField g form = .ok g')
    (_hset : f.canSet = false)
    (hvalid : valid (formGet form f.formName) f.validate f.validateMsg = .error e) :
    (∀ (v : FieldVal) (s : String), scan false v s = .ok v) ∧
    (parseValidForm (pre ++ f :: post) form).2 = some e := by
  constructor
  · intro v s
    simp [scan]
  · rw [parseValidForm_append_ok pre (f :: post) form hpre, parseValidForm_cons]
    have hb : bindField f form = .error e := by simp [bindField, hvalid]
    rw [hb]

/-- Witness for C7: `scan` leaves an unsettable field alone even on a
non-numeric string, and an unsettable field with a failing pattern still
fails the call with the configured message. -/
theorem unsettable_field_skipped_but_validated_check :
    scan false (.intv .int 0) "notanumber" = .ok (.intv .int 0) ∧
    (parseValidForm [⟨"a", "x", "m", false, .str ""⟩] [("a", ["y"])]).2 =
      some (.simple "m") := by
  have h := unsettable_field_skipped_but_validated [] ⟨"a", "x", "m", false, .str ""⟩ []
    [("a", ["y"])] (.simple "m") (by simp) rfl (by decide)
  exact ⟨h.1 _ _, h.2⟩

/-- A name bound by no form entry reads as the empty string. -/
theorem formGet_eq_empty (form : Form) (name : String)
    (h : ∀ p ∈ form, p.1 ≠ name) : formGet form name = "" := by
  induction form with
  | nil => rfl
  | cons p rest ih =>
    obtain ⟨k, vs⟩ := p
    have hk : k ≠ name := h (k, vs) (by simp)
    simpa [formGet, hk] using ih (fun x hx => h x (by simp [hx]))

/-- Empty-string parse facts for the four `strconv` models. -/
theorem goParse_empty_fails :
    goParseBool "" = .error (.numError "ParseBool" "" .errSyn) ∧
    goParseInt64 "" = .error (.numError "ParseInt" "" .errSyn) ∧
    goParseUint64 "" = .error (.numError "ParseUint" "" .errSyn) ∧
    goParseFloat "" = .error (.numError "ParseFloat" "" .errSyn) := by
  refine ⟨by decide, by decide, by decide, by decide⟩

/-- C8: When a settable field's named form parameter is absent, the field
is bound from `""` (passing its regex, by hypothesis): a string field is
set to `""` and the call succeeds, while bool, integer, unsigned-integer
and float fields make the call fail with the corresponding empty-string
parse error. -/
theorem absent_param_binds_empty (form : Form) (f : Field)
    (habs : ∀ p ∈ form, p.1 ≠ f.formName)
    (hset : f.canSet = true)
    (hval : valid "" f.validate f.validateMsg = .ok ()) :
    formGet form f.formName = "" ∧
    (∀ s0, f.val = .str s0 →
      parseValidForm [f] form = ([{ f with val := .str "" }], none)) ∧
    (∀ b, f.val = .boolean b →
      parseValidForm [f] form = ([f], some (.numError "ParseBool" "" .errSyn))) ∧
    (∀ k i, f.val = .intv k i →
      parseValidForm [f] form = ([f], some (.numError "ParseInt" "" .errSyn))) ∧
    (∀ k x, f.val = .uintv k x →
      parseValidForm [f] form = ([f], some (.numError "ParseUint" "" .errSyn))) ∧
    (∀ k q, f.val = .floatv k q →
      parseValidForm [f] form = ([f], some (.numError "ParseFloat" "" .errSyn))) := by
  have hget : formGet form f.formName = "" := formGet_eq_empty form f.formName habs
  refine ⟨hget, ?_, ?_, ?_, ?_, ?_⟩
  · intro s0 hv
    simp [parseValidForm, hget, hval, scan, hset, hv]
  · intro b hv
    simp [parseValidForm, hget, hval, scan, hset, hv, goParse_empty_fails.1]
  · intro k i hv
    simp [parseValidForm, hget, hval, scan, hset, hv, goParse_empty_fails.2.1]
  · intro k x hv
    simp [parseValidForm, hget, hval, scan, hset, hv, goParse_empty_fails.2.2.1]
  · intro k q hv
    simp [parseValidForm, hget, hval, scan, hset, hv, goParse_empty_fails.2.2.2]

/-- Witness for C8: an `int16` field whose parameter is missing fails
with the empty-string `ParseInt` syntax error, unchanged. -/
theorem absent_param_binds_empty_check :
    parseValidForm [⟨"miss", "", "", true, .intv .int16 7⟩] [("other", ["1"])] =
      ([⟨"miss", "", "", true, .intv .int16 7⟩], some (.numError "ParseInt" "" .errSyn)) := by
  have h := absent_param_binds_empty [("other", ["1"])] ⟨"miss", "", "", true, .intv .int16 7⟩
    (by intro p hp; simp only [List.mem_singleton] at hp; subst hp; decide) rfl (by decide)
  exact h.2.2.2.1 .int16 7 rfl

end Zen
